import Mathlib

/-!
Verification of the transcript service core (`src/main.py`): the bounded
TTL cache (`get_from_cache` / `set_cache`) and the multi-language
transcript resolver inside the `get_transcript` endpoint.

The embedding is shallow: the global in-memory `cache` dict becomes an
explicit association list passed through the operations (Python dicts
preserve insertion order; updating an existing key keeps its position,
inserting a new key appends at the end).  Wall-clock time
(`datetime.now()`) becomes an explicit `now : Nat` parameter and absolute
expiry timestamps become naturals.  The external `youtube_transcript_api`
provider is modelled by data: the outcome of `list_transcripts` is an
`Except` value, each catalogue track carries its language, which target
languages it can be translated to, and the outcome of fetching its (plain
or translated) timed content.  Exceptions raised by the provider become
`ErrKind` values, and the `except` clauses of the endpoint become the
`classify` function to an HTTP status plus error code.
-/

set_option autoImplicit false
set_option maxRecDepth 10000

namespace TranscriptService

universe u

variable {α : Type u}

/-- The constant `CACHE_MAX_SIZE = 256` (src/main.py line 36). -/
def CACHE_MAX_SIZE : Nat := 256

/-- One value of the `cache` dict: `{"data": ..., "expires_at": ...}`
(src/main.py lines 81-84). -/
structure CacheEntry (α : Type u) where
  data : α
  expires_at : Nat
  deriving Repr, DecidableEq

/-- The global `cache` dict, as an insertion-ordered association list. -/
abbrev Cache (α : Type u) : Type u := List (String × CacheEntry α)

/-- The keys of the cache, in dict iteration (insertion) order. -/
def keysOf (c : Cache α) : List String := c.map Prod.fst

/-- Dict lookup `key in cache` / `cache[key]`: first entry stored under `key`. -/
def lookupEntry (key : String) : Cache α → Option (CacheEntry α)
  | [] => none
  | (k, e) :: rest => if k = key then some e else lookupEntry key rest

/-- Dict assignment `cache[key] = e`: replace in place if present, else append at the end
(Python dict assignment semantics). -/
def insertEntry (key : String) (e : CacheEntry α) : Cache α → Cache α
  | [] => [(key, e)]
  | (k, e') :: rest =>
    if k = key then (key, e) :: rest else (k, e') :: insertEntry key e rest

/-- Dict deletion `del cache[key]`: drop the entry stored under `key`. -/
def eraseKey (key : String) : Cache α → Cache α
  | [] => []
  | (k, e) :: rest => if k = key then rest else (k, e) :: eraseKey key rest

/-- Python `min(cache.keys(), key=lambda k: cache[k]["expires_at"])`
(src/main.py line 78): the key of the first entry attaining the minimal
expiry — `List.argmin` keeps the earliest element on ties, exactly like
Python's `min`.  `none` on an empty dict (where Python would raise). -/
def oldestKey (c : Cache α) : Option String :=
  (c.argmin (fun p => p.2.expires_at)).map Prod.fst

/-- The function `get_from_cache` (src/main.py lines 60-70): returns the stored data if
present and not stale (`datetime.now() > expires_at` deletes and misses),
together with the cache state after the lazy deletion. -/
def get_from_cache (now : Nat) (key : String) (c : Cache α) :
    Option α × Cache α :=
  match lookupEntry key c with
  | none => (none, c)
  | some entry =>
    if entry.expires_at < now then (none, eraseKey key c)
    else (some entry.data, c)

/-- The function `set_cache` (src/main.py lines 73-84): when `len(cache) >= CACHE_MAX_SIZE`,
delete the entry with the minimum `expires_at`, then store `key` with expiry
`now + ttl` (`ttl` is the `CACHE_TTL_SECONDS` configuration). -/
def set_cache (ttl now : Nat) (key : String) (data : α) (c : Cache α) :
    Cache α :=
  insertEntry key ⟨data, now + ttl⟩
    (if CACHE_MAX_SIZE ≤ c.length then
      match oldestKey c with
      | some k0 => eraseKey k0 c
      | none => c
    else c)

/-- A sequence of `set_cache` calls: each operation is (now, key, data). -/
def runPuts (ttl : Nat) (ops : List (Nat × String × α)) (c : Cache α) :
    Cache α :=
  ops.foldl (fun c op => set_cache ttl op.1 op.2.1 op.2.2 c) c

/-- Python `"sep".join(xs)` (string join). -/
def pyJoin (sep : String) : List String → String
  | [] => ""
  | [x] => x
  | x :: y :: rest => x ++ sep ++ pyJoin sep (y :: rest)

/-- The function `get_cache_key` (src/main.py lines 55-57): the f-string joining
video id and language string with a colon. -/
def get_cache_key (video_id : String) (lang : String) : String :=
  video_id ++ ":" ++ lang

/-- One raw item of `transcript.fetch()`: `{"text": ..., "start": ...}` with
an optional `"duration"` field (`item.get("duration", 0)`). -/
structure RawEntry where
  text : String
  start : Rat
  duration : Option Rat
  deriving Repr, DecidableEq

/-- The exception classes of `youtube_transcript_api` caught by the endpoint
(src/main.py lines 249-300); `otherError` is the bare `except Exception`. -/
inductive ErrKind where
  | transcriptsDisabled
  | noTranscriptFound
  | videoUnavailable
  | tooManyRequests
  | otherError (msg : String)
  deriving Repr, DecidableEq

/-- One transcript track of the provider catalogue.  `canTranslate l` is
whether `track.translate(l)` succeeds (raising is modelled as `false`);
`fetchResult` is the outcome of `track.fetch()`; `fetchTranslated l` is the
outcome of `track.translate(l).fetch()`. -/
structure Track where
  language : String
  canTranslate : String → Bool
  fetchResult : Except ErrKind (List RawEntry)
  fetchTranslated : String → Except ErrKind (List RawEntry)

/-- One formatted segment (src/main.py lines 227-231), `duration`
defaulting to 0 when missing. -/
structure Segment where
  text : String
  start : Rat
  duration : Rat
  deriving Repr, DecidableEq

/-- The `result` dict that is stored in the cache (src/main.py lines
216-232): the `segments` key is present only when it was added
(`format == "json"`), hence an `Option`.  The per-request `request_id`
field is correlation plumbing and is not modelled. -/
structure StoredResult where
  video_id : String
  text : String
  language_used : String
  segments : Option (List Segment)
  deriving Repr, DecidableEq

/-- The body returned by the endpoint: `language_used` and `segments` are
`none` exactly when the corresponding dict keys are absent. -/
structure Response where
  video_id : String
  text : String
  language_used : Option String
  segments : Option (List Segment)
  deriving Repr, DecidableEq

/-- An HTTPException: status code plus the `error` field of its detail. -/
structure HttpError where
  status : Nat
  error : String
  deriving Repr, DecidableEq

/-- The `except` clauses of `get_transcript` (src/main.py lines 249-300). -/
def classify : ErrKind → HttpError
  | .transcriptsDisabled => ⟨404, "no_transcript"⟩
  | .noTranscriptFound => ⟨404, "no_transcript"⟩
  | .videoUnavailable => ⟨404, "video_unavailable"⟩
  | .tooManyRequests => ⟨429, "rate_limited"⟩
  | .otherError _ => ⟨500, "internal_error"⟩

/-- The API-key gate (src/main.py lines 138-144): fails when `API_KEY` is
configured (non-empty) and the `x-api-key` header is missing, empty
(Python falsy) or different. -/
def authFailed (apiKey : String) (xApiKey : Option String) : Bool :=
  if apiKey = "" then false
  else
    match xApiKey with
    | none => true
    | some k => if k = "" then true else k ≠ apiKey

/-- Computation of `languages` (src/main.py lines 154-157): `if lang:` is
Python truthiness, so an absent or empty `lang` selects the default list. -/
def defaultLanguages : List String := ["pt-BR", "pt", "pt-PT", "en"]

/-- Compute the ordered candidate language list of a request. -/
def requestLanguages (lang : Option String) : List String :=
  match lang with
  | none => defaultLanguages
  | some l => if l = "" then defaultLanguages else [l]

/-- The library call `transcript_list.find_transcript([l])` (src/main.py line 189): the
first catalogue track whose language is exactly `l`, or `none` when the
library raises `NoTranscriptFound` / `TranscriptsDisabled`. -/
def findExact (catalogue : List Track) (l : String) : Option Track :=
  catalogue.find? (fun t => t.language == l)

/-- The resolution loop (src/main.py lines 186-204): iterate the candidate
languages in order; per candidate try the exact match first and, failing
that, translate the first catalogue track (`list(transcript_list)[0]`)
into the candidate; the first success breaks out of the loop carrying the
pending fetch outcome and the `language_used` value assigned next to it. -/
def selectTranscript (catalogue : List Track) :
    List String → Option (Except ErrKind (List RawEntry) × String)
  | [] => none
  | l :: rest =>
    match findExact catalogue l with
    | some t => some (t.fetchResult, l)
    | none =>
      match catalogue with
      | [] => selectTranscript catalogue rest
      | t0 :: _ =>
        if t0.canTranslate l then some (t0.fetchTranslated l, l)
        else selectTranscript catalogue rest

/-- Python `language_used or "unknown"` (src/main.py line 219): the `or` on an
optional string, the empty string being falsy. -/
def pyOr (s : Option String) (dflt : String) : String :=
  match s with
  | none => dflt
  | some l => if l = "" then dflt else l

/-- Normalization `full_text` (joining entry texts with single spaces)
(src/main.py line 213). -/
def fullTextOf (entries : List RawEntry) : String :=
  pyJoin " " (entries.map (fun e => e.text))

/-- The segment list built at src/main.py lines 225-231. -/
def segmentsOf (entries : List RawEntry) : List Segment :=
  entries.map (fun e => ⟨e.text, e.start, e.duration.getD 0⟩)

/-- The `result` dict assembled at src/main.py lines 216-232: `segments`
added only when `format == "json"`. -/
def buildStoredResult (video_id format language_used : String)
    (entries : List RawEntry) : StoredResult :=
  { video_id := video_id
    text := fullTextOf entries
    language_used := pyOr (some language_used) "unknown"
    segments := if format = "json" then some (segmentsOf entries) else none }

/-- The response shaping shared by the cache-hit and fresh paths
(src/main.py lines 168-174 and 240-247): `format == "text"` projects to
`{video_id, text}`, otherwise the whole result dict is returned. -/
def formatResponse (format : String) (r : StoredResult) : Response :=
  if format = "text" then ⟨r.video_id, r.text, none, none⟩
  else ⟨r.video_id, r.text, some r.language_used, r.segments⟩

/-- The cache-miss branch of `get_transcript` (src/main.py lines 177-300):
consult the provider catalogue, run the resolution loop, raise
`NoTranscriptFound` when it selects nothing, fetch the timed content,
build the result, store it with `set_cache`, and shape the response; every
raised exception is routed through `classify` with the cache untouched. -/
def resolveMiss (ttl now : Nat) (provider : Except ErrKind (List Track))
    (video_id format cache_key : String) (languages : List String)
    (c1 : Cache StoredResult) :
    Except HttpError Response × Cache StoredResult :=
  match provider with
  | .error e => (.error (classify e), c1)
  | .ok catalogue =>
    match selectTranscript catalogue languages with
    | none => (.error (classify .noTranscriptFound), c1)
    | some (fetchOutcome, language_used) =>
      match fetchOutcome with
      | .error e => (.error (classify e), c1)
      | .ok entries =>
        let result := buildStoredResult video_id format language_used entries
        (.ok (formatResponse format result),
          set_cache ttl now cache_key result c1)

/-- The `get_transcript` endpoint core (src/main.py lines 120-300): the
API-key gate, the format validation, the candidate language list, the
cache lookup with its hit short-circuit, and the miss path. -/
def get_transcript (apiKey : String) (xApiKey : Option String)
    (ttl now : Nat) (provider : Except ErrKind (List Track))
    (video_id : String) (lang : Option String) (format : String)
    (c : Cache StoredResult) :
    Except HttpError Response × Cache StoredResult :=
  if authFailed apiKey xApiKey then (.error ⟨401, "unauthorized"⟩, c)
  else if ¬ (format = "text" ∨ format = "json") then
    (.error ⟨400, "invalid_format"⟩, c)
  else
    match get_from_cache now
        (get_cache_key video_id (pyJoin "," (requestLanguages lang))) c with
    | (some r, c1) => (.ok (formatResponse format r), c1)
    | (none, c1) =>
      resolveMiss ttl now provider video_id format
        (get_cache_key video_id (pyJoin "," (requestLanguages lang)))
        (requestLanguages lang) c1

/-! ### Concrete inputs used by witnesses and counterexamples -/

/-- A concrete 256-entry cache used to instantiate the capacity-related
theorems: key `i` is the string of `i` repeated `'a'` characters and its
entry expires at time `i`. -/
def wKey (i : Nat) : String := String.mk (List.replicate i 'a')

/-- See `wKey`. -/
def bigCache : Cache Nat :=
  (List.range 256).map (fun i => (wKey i, ⟨0, i⟩))

/-- A catalogue holding a single "pt" track that can be translated to
"xx" and nothing else. -/
def ptTrack : Track where
  language := "pt"
  canTranslate := fun s => s == "xx"
  fetchResult := .ok [⟨"ola", 0, some 1⟩]
  fetchTranslated := fun _ => .ok [⟨"hello", 0, some 1⟩]

/-- See `ptTrack`. -/
def ptCatalogue : List Track := [ptTrack]

/-- Two timed entries, the second missing its optional duration. -/
def enEntries : List RawEntry := [⟨"hello", 0, some 1⟩, ⟨"world", 1, none⟩]

/-- A catalogue holding a single "en" track with `enEntries` as content
and no translations. -/
def enTrack : Track where
  language := "en"
  canTranslate := fun _ => false
  fetchResult := .ok enEntries
  fetchTranslated := fun _ => .error .noTranscriptFound

/-- See `enTrack`. -/
def enCatalogue : List Track := [enTrack]

/-- A catalogue holding a single "pt" track that cannot be translated at
all. -/
def rigidTrack : Track where
  language := "pt"
  canTranslate := fun _ => false
  fetchResult := .ok []
  fetchTranslated := fun _ => .error .noTranscriptFound

/-- See `rigidTrack`. -/
def rigidCatalogue : List Track := [rigidTrack]

/-! ### Cache lemmas -/

theorem lookupEntry_eq_none_iff {key : String} {c : Cache α} :
    lookupEntry key c = none ↔ key ∉ keysOf c := by
  induction c with
  | nil => simp [lookupEntry, keysOf]
  | cons p rest ih =>
    obtain ⟨k, e⟩ := p
    by_cases h : k = key
    · subst h; simp [lookupEntry, keysOf]
    · simp only [lookupEntry, keysOf, List.map_cons, List.mem_cons, if_neg h] at *
      rw [ih]
      constructor
      · intro hn hor
        rcases hor with hor | hor
        · exact h hor.symm
        · exact hn hor
      · intro hn hmem
        exact hn (Or.inr hmem)

theorem mem_of_lookupEntry_some {key : String} {e : CacheEntry α} {c : Cache α}
    (h : lookupEntry key c = some e) : (key, e) ∈ c := by
  induction c with
  | nil => simp [lookupEntry] at h
  | cons p rest ih =>
    obtain ⟨k, e'⟩ := p
    by_cases hk : k = key
    · subst hk
      simp [lookupEntry] at h
      rw [← h]
      exact List.mem_cons_self _ _
    · simp only [lookupEntry, if_neg hk] at h
      exact List.mem_cons_of_mem _ (ih h)

theorem keysOf_insertEntry (key : String) (e : CacheEntry α) (c : Cache α) :
    keysOf (insertEntry key e c) =
      if key ∈ keysOf c then keysOf c else keysOf c ++ [key] := by
  induction c with
  | nil => simp [insertEntry, keysOf]
  | cons p rest ih =>
    obtain ⟨k, e'⟩ := p
    by_cases h : k = key
    · subst h
      simp [insertEntry, keysOf]
    · have hne : ¬ key = k := fun hh => h hh.symm
      simp only [insertEntry, if_neg h, keysOf, List.map_cons, List.mem_cons] at *
      rw [ih]
      by_cases hmem : key ∈ List.map Prod.fst rest
      · simp [hmem, hne]
      · simp [hmem, hne]

theorem keysOf_eraseKey (key : String) (c : Cache α) :
    keysOf (eraseKey key c) = (keysOf c).erase key := by
  induction c with
  | nil => simp [eraseKey, keysOf]
  | cons p rest ih =>
    obtain ⟨k, e⟩ := p
    by_cases h : k = key
    · subst h
      simp [eraseKey, keysOf, List.erase_cons]
    · have hba : (k == key) = false := by simp [h]
      simp only [eraseKey, if_neg h, keysOf, List.map_cons, List.erase_cons, hba,
        if_false]
      exact congrArg (List.cons k) ih

theorem length_keysOf (c : Cache α) : (keysOf c).length = c.length := by
  simp [keysOf]

theorem lookupEntry_insertEntry_self (key : String) (e : CacheEntry α)
    (c : Cache α) : lookupEntry key (insertEntry key e c) = some e := by
  induction c with
  | nil => simp [insertEntry, lookupEntry]
  | cons p rest ih =>
    obtain ⟨k, e'⟩ := p
    by_cases h : k = key
    · subst h; simp [insertEntry, lookupEntry]
    · simp [insertEntry, lookupEntry, h, ih]

theorem mem_insertEntry_of_ne {p : String × CacheEntry α} {c : Cache α}
    (hp : p ∈ c) (key : String) (e : CacheEntry α) (hne : p.1 ≠ key) :
    p ∈ insertEntry key e c := by
  induction c with
  | nil => simp at hp
  | cons q rest ih =>
    obtain ⟨k, e'⟩ := q
    by_cases h : k = key
    · subst h
      simp only [insertEntry, if_pos rfl]
      rcases List.mem_cons.mp hp with hq | hq
      · exact absurd (congrArg Prod.fst hq) hne
      · exact List.mem_cons_of_mem _ hq
    · simp only [insertEntry, if_neg h]
      rcases List.mem_cons.mp hp with hq | hq
      · rw [hq]; exact List.mem_cons_self _ _
      · exact List.mem_cons_of_mem _ (ih hq)

theorem mem_eraseKey_of_ne {p : String × CacheEntry α} {c : Cache α}
    (hp : p ∈ c) (key : String) (hne : p.1 ≠ key) : p ∈ eraseKey key c := by
  induction c with
  | nil => simp at hp
  | cons q rest ih =>
    obtain ⟨k, e'⟩ := q
    by_cases h : k = key
    · subst h
      simp only [eraseKey, if_pos rfl]
      rcases List.mem_cons.mp hp with hq | hq
      · exact absurd (congrArg Prod.fst hq) hne
      · exact hq
    · simp only [eraseKey, if_neg h]
      rcases List.mem_cons.mp hp with hq | hq
      · rw [hq]; exact List.mem_cons_self _ _
      · exact List.mem_cons_of_mem _ (ih hq)

theorem length_insertEntry_le (key : String) (e : CacheEntry α) (c : Cache α) :
    (insertEntry key e c).length ≤ c.length + 1 := by
  have h := keysOf_insertEntry key e c
  by_cases hmem : key ∈ keysOf c
  · rw [if_pos hmem] at h
    have := congrArg List.length h
    rw [length_keysOf, length_keysOf] at this
    omega
  · rw [if_neg hmem] at h
    have := congrArg List.length h
    rw [length_keysOf, List.length_append, length_keysOf] at this
    simp at this
    omega

theorem length_eraseKey_of_mem {key : String} {c : Cache α}
    (h : key ∈ keysOf c) : (eraseKey key c).length = c.length - 1 := by
  have hk := congrArg List.length (keysOf_eraseKey key c)
  rw [length_keysOf, List.length_erase_of_mem h, length_keysOf] at hk
  exact hk

theorem nodup_keysOf_insertEntry {key : String} {e : CacheEntry α}
    {c : Cache α} (h : (keysOf c).Nodup) :
    (keysOf (insertEntry key e c)).Nodup := by
  rw [keysOf_insertEntry]
  by_cases hmem : key ∈ keysOf c
  · rw [if_pos hmem]; exact h
  · rw [if_neg hmem]
    rw [List.nodup_append]
    exact ⟨h, List.nodup_singleton key,
      fun a ha hb => hmem (by rwa [List.mem_singleton.mp hb] at ha)⟩

theorem nodup_keysOf_eraseKey {key : String} {c : Cache α}
    (h : (keysOf c).Nodup) : (keysOf (eraseKey key c)).Nodup := by
  rw [keysOf_eraseKey]
  exact h.erase key

theorem lookupEntry_eraseKey_self {key : String} {c : Cache α}
    (h : (keysOf c).Nodup) : lookupEntry key (eraseKey key c) = none := by
  rw [lookupEntry_eq_none_iff, keysOf_eraseKey]
  exact h.not_mem_erase

theorem oldestKey_spec {c : Cache α} (h : c ≠ []) :
    ∃ k0 e0, oldestKey c = some k0 ∧ (k0, e0) ∈ c ∧
      ∀ p ∈ c, e0.expires_at ≤ p.2.expires_at := by
  rcases hm : c.argmin (fun p => p.2.expires_at) with _ | p
  · exact absurd (List.argmin_eq_none.mp hm) h
  · have hmm : p ∈ c.argmin (fun q => q.2.expires_at) := Option.mem_def.mpr hm
    refine ⟨p.1, p.2, ?_, ?_, ?_⟩
    · simp [oldestKey, hm]
    · simpa using List.argmin_mem hmm
    · intro q hq
      exact List.le_of_mem_argmin (f := fun r => r.2.expires_at) hq hmm

theorem lookupEntry_set_cache_self (ttl now : Nat) (key : String) (d : α)
    (c : Cache α) :
    lookupEntry key (set_cache ttl now key d c) = some ⟨d, now + ttl⟩ := by
  unfold set_cache
  exact lookupEntry_insertEntry_self _ _ _

theorem set_cache_step {c : Cache α} (ttl now : Nat) (key : String) (d : α)
    (hlen : c.length ≤ CACHE_MAX_SIZE) (hnd : (keysOf c).Nodup) :
    (set_cache ttl now key d c).length ≤ CACHE_MAX_SIZE ∧
      (keysOf (set_cache ttl now key d c)).Nodup := by
  unfold set_cache
  by_cases hcap : CACHE_MAX_SIZE ≤ c.length
  · have hne : c ≠ [] := by
      intro hc
      rw [hc] at hcap
      simp [CACHE_MAX_SIZE] at hcap
    obtain ⟨k0, e0, hk0, hmem, _⟩ := oldestKey_spec hne
    have hk0mem : k0 ∈ keysOf c := List.mem_map.mpr ⟨(k0, e0), hmem, rfl⟩
    rw [if_pos hcap, hk0]
    have hlen' : (eraseKey k0 c).length = c.length - 1 :=
      length_eraseKey_of_mem hk0mem
    have hcap' : 256 ≤ c.length := hcap
    constructor
    · calc (insertEntry key ⟨d, now + ttl⟩ (eraseKey k0 c)).length
          ≤ (eraseKey k0 c).length + 1 := length_insertEntry_le _ _ _
        _ ≤ c.length := by omega
        _ ≤ CACHE_MAX_SIZE := hlen
    · exact nodup_keysOf_insertEntry (nodup_keysOf_eraseKey hnd)
  · rw [if_neg hcap]
    have hcap' : c.length < 256 := Nat.lt_of_not_le hcap
    constructor
    · calc (insertEntry key ⟨d, now + ttl⟩ c).length
          ≤ c.length + 1 := length_insertEntry_le _ _ _
        _ ≤ CACHE_MAX_SIZE := by show _ ≤ 256; omega
    · exact nodup_keysOf_insertEntry hnd

theorem runPuts_cons (ttl : Nat) (op : Nat × String × α)
    (ops : List (Nat × String × α)) (c : Cache α) :
    runPuts ttl (op :: ops) c = runPuts ttl ops (set_cache ttl op.1 op.2.1 op.2.2 c) :=
  rfl

theorem runPuts_inv (ttl : Nat) (ops : List (Nat × String × α)) (c : Cache α)
    (h : c.length ≤ CACHE_MAX_SIZE ∧ (keysOf c).Nodup) :
    (runPuts ttl ops c).length ≤ CACHE_MAX_SIZE ∧
      (keysOf (runPuts ttl ops c)).Nodup := by
  induction ops generalizing c with
  | nil => exact h
  | cons op rest ih =>
    rw [runPuts_cons]
    exact ih _ (set_cache_step ttl op.1 op.2.1 op.2.2 h.1 h.2)

theorem nodup_keysOf_set_cache (ttl now : Nat) (key : String) (d : α)
    {c : Cache α} (hnd : (keysOf c).Nodup) :
    (keysOf (set_cache ttl now key d c)).Nodup := by
  unfold set_cache
  apply nodup_keysOf_insertEntry
  by_cases hcap : CACHE_MAX_SIZE ≤ c.length
  · rw [if_pos hcap]
    cases h : oldestKey c with
    | none => exact hnd
    | some k0 => exact nodup_keysOf_eraseKey hnd

  · rw [if_neg hcap]
    exact hnd

theorem nodup_keysOf_bigCache : (keysOf bigCache).Nodup := by
  have h : keysOf bigCache = List.map wKey (List.range 256) := by
    simp only [keysOf, bigCache, List.map_map]
    rfl
  rw [h]
  refine List.Nodup.map ?_ (List.nodup_range 256)
  intro i j hij
  have h2 : (List.replicate i 'a').length = (List.replicate j 'a').length := by
    have h3 := congrArg String.data hij
    simpa [wKey] using congrArg List.length h3
  simpa using h2

/-- C2: starting from the empty cache, any sequence of `set_cache` calls
(each a triple of call time, key and data) leaves the cache with pairwise
distinct keys and with at most `CACHE_MAX_SIZE = 256` entries.  Since every
prefix of a sequence is itself a sequence, the bound holds after each
call. -/
theorem C2_cache_capacity_invariant {α : Type u} (ttl : Nat)
    (ops : List (Nat × String × α)) :
    (runPuts ttl ops ([] : Cache α)).length ≤ CACHE_MAX_SIZE ∧
      (keysOf (runPuts ttl ops ([] : Cache α))).Nodup :=
  runPuts_inv ttl ops [] ⟨by simp [CACHE_MAX_SIZE], by simp [keysOf]⟩

/-- C3: when `set_cache` inserts a key that is not present while the cache
is at capacity, the single entry it removes is one with minimal
`expires_at` among the entries present before the call: the evicted key
`k0` was present with a minimal expiry, the call equals a single erase of
`k0` followed by the insertion, `k0` is absent afterwards, and every other
entry survives untouched. -/
theorem C3_eviction_min_expiry {α : Type u} (ttl now : Nat) (key : String)
    (d : α) (c : Cache α) (hcap : CACHE_MAX_SIZE ≤ c.length)
    (hnd : (keysOf c).Nodup) (hnew : lookupEntry key c = none) :
    ∃ k0 e0, (k0, e0) ∈ c ∧
      (∀ p ∈ c, e0.expires_at ≤ p.2.expires_at) ∧
      set_cache ttl now key d c =
        insertEntry key ⟨d, now + ttl⟩ (eraseKey k0 c) ∧
      lookupEntry k0 (set_cache ttl now key d c) = none ∧
      ∀ p ∈ c, p.1 ≠ k0 → p ∈ set_cache ttl now key d c := by
  have hne : c ≠ [] := by
    intro hc
    rw [hc] at hcap
    simp [CACHE_MAX_SIZE] at hcap
  obtain ⟨k0, e0, hk0, hmem, hmin⟩ := oldestKey_spec hne
  have heq : set_cache ttl now key d c =
      insertEntry key ⟨d, now + ttl⟩ (eraseKey k0 c) := by
    unfold set_cache
    rw [if_pos hcap, hk0]
  have hkeyabs : key ∉ keysOf c := lookupEntry_eq_none_iff.mp hnew
  have hk0mem : k0 ∈ keysOf c := List.mem_map.mpr ⟨(k0, e0), hmem, rfl⟩
  have hk0key : k0 ≠ key := fun h => hkeyabs (h ▸ hk0mem)
  refine ⟨k0, e0, hmem, hmin, heq, ?_, ?_⟩
  · rw [heq, lookupEntry_eq_none_iff, keysOf_insertEntry]
    have habs : k0 ∉ keysOf (eraseKey k0 c) := by
      rw [keysOf_eraseKey]
      exact hnd.not_mem_erase
    by_cases hc : key ∈ keysOf (eraseKey k0 c)
    · rw [if_pos hc]
      exact habs
    · rw [if_neg hc]
      intro hin
      rcases List.mem_append.mp hin with hin | hin
      · exact habs hin
      · exact hk0key (List.mem_singleton.mp hin)
  · intro p hp hpne
    rw [heq]
    have hpkey : p.1 ≠ key := by
      intro h
      exact hkeyabs (h ▸ List.mem_map.mpr ⟨p, hp, rfl⟩)
    exact mem_insertEntry_of_ne (mem_eraseKey_of_ne hp k0 hpne) key _ hpkey

/-- Witness for C3 at a concrete input: `bigCache` holds 256 entries and
the key `"x"` is new, so the theorem applies. -/
theorem C3_eviction_min_expiry_witness :
    CACHE_MAX_SIZE ≤ bigCache.length ∧
      lookupEntry "x" bigCache = none ∧
      ∃ k0 e0, (k0, e0) ∈ bigCache ∧
        (∀ p ∈ bigCache, e0.expires_at ≤ p.2.expires_at) ∧
        set_cache 3600 0 "x" 7 bigCache =
          insertEntry "x" ⟨7, 0 + 3600⟩ (eraseKey k0 bigCache) ∧
        lookupEntry k0 (set_cache 3600 0 "x" 7 bigCache) = none ∧
        ∀ p ∈ bigCache, p.1 ≠ k0 → p ∈ set_cache 3600 0 "x" 7 bigCache :=
  ⟨by decide, by decide,
    C3_eviction_min_expiry 3600 0 "x" 7 bigCache (by decide)
      nodup_keysOf_bigCache (by decide)⟩

theorem get_from_cache_of_lookup_none {now : Nat} {key : String}
    {c : Cache α} (hl : lookupEntry key c = none) :
    get_from_cache now key c = (none, c) := by
  unfold get_from_cache
  rw [hl]

theorem get_from_cache_of_lookup_fresh {now : Nat} {key : String}
    {c : Cache α} {e : CacheEntry α} (hl : lookupEntry key c = some e)
    (h : ¬ e.expires_at < now) :
    get_from_cache now key c = (some e.data, c) := by
  unfold get_from_cache
  rw [hl]
  exact if_neg h

theorem get_from_cache_of_lookup_stale {now : Nat} {key : String}
    {c : Cache α} {e : CacheEntry α} (hl : lookupEntry key c = some e)
    (h : e.expires_at < now) :
    get_from_cache now key c = (none, eraseKey key c) := by
  unfold get_from_cache
  rw [hl]
  exact if_pos h

/-- C4 counterexample: in `bigCache` the key `wKey 5` is present and the
cache is at capacity; `set_cache` on that present key nevertheless evicts
the minimum-expiry entry `wKey 0`, so a put whose key is already present
does not leave every other key's entry unchanged. -/
theorem C4_eviction_despite_present_key :
    lookupEntry (wKey 5) bigCache = some ⟨0, 5⟩ ∧
      lookupEntry (wKey 0) bigCache = some ⟨0, 0⟩ ∧
      lookupEntry (wKey 0) (set_cache 3600 50 (wKey 5) 7 bigCache) = none := by
  decide

/-- C4 amended: eviction is triggered by capacity alone
(`len(cache) >= CACHE_MAX_SIZE`), independently of whether the key being
put is already present.  Below capacity a put leaves every other key's
entry unchanged; at capacity it removes a minimum-expiry entry, which can
belong to a different key even when the put key is already present. -/
theorem C4_put_frame_and_eviction {α : Type u} (ttl now : Nat)
    (key : String) (d : α) (c : Cache α) (hnd : (keysOf c).Nodup) :
    (c.length < CACHE_MAX_SIZE →
      ∀ p ∈ c, p.1 ≠ key → p ∈ set_cache ttl now key d c) ∧
    (CACHE_MAX_SIZE ≤ c.length →
      ∃ k0 e0, (k0, e0) ∈ c ∧
        (∀ p ∈ c, e0.expires_at ≤ p.2.expires_at) ∧
        (k0 ≠ key → lookupEntry k0 (set_cache ttl now key d c) = none)) := by
  constructor
  · intro hlt p hp hpne
    unfold set_cache
    rw [if_neg (Nat.not_le_of_lt hlt)]
    exact mem_insertEntry_of_ne hp key _ hpne
  · intro hcap
    have hne : c ≠ [] := by
      intro hc
      rw [hc] at hcap
      simp [CACHE_MAX_SIZE] at hcap
    obtain ⟨k0, e0, hk0, hmem, hmin⟩ := oldestKey_spec hne
    have heq : set_cache ttl now key d c =
        insertEntry key ⟨d, now + ttl⟩ (eraseKey k0 c) := by
      unfold set_cache
      rw [if_pos hcap, hk0]
    refine ⟨k0, e0, hmem, hmin, ?_⟩
    intro hk0key
    rw [heq, lookupEntry_eq_none_iff, keysOf_insertEntry]
    have habs : k0 ∉ keysOf (eraseKey k0 c) := by
      rw [keysOf_eraseKey]
      exact hnd.not_mem_erase
    by_cases hc : key ∈ keysOf (eraseKey k0 c)
    · rw [if_pos hc]
      exact habs
    · rw [if_neg hc]
      intro hin
      rcases List.mem_append.mp hin with hin | hin
      · exact habs hin
      · exact hk0key (List.mem_singleton.mp hin)

/-- Witness for the amended C4 at a concrete input: `bigCache` is at
capacity and the put key `wKey 5` is present, yet a minimal-expiry entry
of some other key is evicted. -/
theorem C4_put_frame_and_eviction_witness :
    CACHE_MAX_SIZE ≤ bigCache.length ∧
      ∃ k0 e0, (k0, e0) ∈ bigCache ∧
        (∀ p ∈ bigCache, e0.expires_at ≤ p.2.expires_at) ∧
        (k0 ≠ wKey 5 →
          lookupEntry k0 (set_cache 3600 50 (wKey 5) 7 bigCache) = none) :=
  ⟨by decide,
    (C4_put_frame_and_eviction 3600 50 (wKey 5) 7 bigCache
      nodup_keysOf_bigCache).2 (by decide)⟩

/-- C5 counterexample: a key inserted at time 0 with TTL 3600 is still
returned at query time `3600 = T + TTL`, where the claim demands absence:
the staleness test is `datetime.now() > expires_at`, so the boundary
instant (expiry not *strictly* after now) is still a hit. -/
theorem C5_ttl_boundary_counterexample :
    (get_from_cache 3600 "k" (set_cache 3600 0 "k" (42 : Nat) [])).1 =
      some 42 := by
  decide

/-- C5 amended: with the entry inserted at time `T` and TTL `ttl` and no
intervening operation, `get_from_cache` returns the stored value for every
query time in the closed interval `[T, T + ttl]` (leaving the cache
unchanged), and for every query time strictly greater than `T + ttl` it
reports absent and removes the stale entry: the value is returned exactly
when its expiry is greater than or equal to the current time. -/
theorem C5_ttl_closed_interval {α : Type u} (ttl T q : Nat) (key : String)
    (d : α) (c : Cache α) (hnd : (keysOf c).Nodup) :
    (q ≤ T + ttl →
      get_from_cache q key (set_cache ttl T key d c) =
        (some d, set_cache ttl T key d c)) ∧
    (T + ttl < q →
      (get_from_cache q key (set_cache ttl T key d c)).1 = none ∧
        lookupEntry key ((get_from_cache q key (set_cache ttl T key d c)).2) =
          none) := by
  have hl := lookupEntry_set_cache_self ttl T key d c
  constructor
  · intro hq
    exact get_from_cache_of_lookup_fresh hl (Nat.not_lt.mpr hq)
  · intro hq
    rw [get_from_cache_of_lookup_stale hl hq]
    exact ⟨rfl, lookupEntry_eraseKey_self (nodup_keysOf_set_cache ttl T key d hnd)⟩

/-- Witness for the amended C5 at concrete inputs: the boundary query time
`3600 = 0 + 3600` still hits, the query time 3601 misses. -/
theorem C5_ttl_closed_interval_witness :
    (keysOf ([] : Cache Nat)).Nodup ∧
      get_from_cache 3600 "k" (set_cache 3600 0 "k" (42 : Nat) []) =
        (some 42, set_cache 3600 0 "k" 42 []) ∧
      (get_from_cache 3601 "k" (set_cache 3600 0 "k" (42 : Nat) [])).1 =
        none :=
  ⟨by decide,
    (C5_ttl_closed_interval 3600 0 3600 "k" 42 [] (by decide)).1 (by decide),
    ((C5_ttl_closed_interval 3600 0 3601 "k" 42 [] (by decide)).2
      (by decide)).1⟩

/-! ### Resolver lemmas -/

theorem findExact_nil (l : String) : findExact [] l = none := rfl

theorem selectTranscript_cons_found (catalogue : List Track) {l : String}
    {t : Track} (rest : List String) (h : findExact catalogue l = some t) :
    selectTranscript catalogue (l :: rest) = some (t.fetchResult, l) := by
  simp [selectTranscript, h]

theorem selectTranscript_cons_translate (t0 : Track) (tl : List Track)
    {l : String} (rest : List String) (h : findExact (t0 :: tl) l = none)
    (ht : t0.canTranslate l = true) :
    selectTranscript (t0 :: tl) (l :: rest) =
      some (t0.fetchTranslated l, l) := by
  simp [selectTranscript, h, ht]

theorem selectTranscript_cons_skip (catalogue : List Track) {l : String}
    (rest : List String) (h : findExact catalogue l = none)
    (ht : ∀ t0 tl, catalogue = t0 :: tl → t0.canTranslate l = false) :
    selectTranscript catalogue (l :: rest) =
      selectTranscript catalogue rest := by
  cases catalogue with
  | nil => simp [selectTranscript, h]
  | cons t0 tl => simp [selectTranscript, h, ht t0 tl rfl]

theorem selectTranscript_nil_catalogue :
    ∀ langs : List String, selectTranscript ([] : List Track) langs = none
  | [] => rfl
  | l :: rest => by
    simp [selectTranscript, findExact, selectTranscript_nil_catalogue rest]

theorem selectTranscript_lang_mem {catalogue : List Track}
    {fo : Except ErrKind (List RawEntry)} {l : String} :
    ∀ {langs : List String},
      selectTranscript catalogue langs = some (fo, l) → l ∈ langs := by
  intro langs
  induction langs with
  | nil => intro h; simp [selectTranscript] at h
  | cons l0 rest ih =>
    intro h
    rcases hfe : findExact catalogue l0 with _ | t
    · cases catalogue with
      | nil =>
        rw [selectTranscript_nil_catalogue] at h
        cases h
      | cons t0 tl =>
        by_cases ht : t0.canTranslate l0 = true
        · rw [selectTranscript_cons_translate t0 tl rest hfe ht] at h
          simp only [Option.some.injEq, Prod.mk.injEq] at h
          obtain ⟨-, rfl⟩ := h
          exact List.mem_cons_self _ _
        · have ht' : ∀ t0' tl', t0 :: tl = t0' :: tl' →
              t0'.canTranslate l0 = false := by
            intro t0' tl' hh
            injection hh with h1 h2
            rw [← h1]
            simpa using ht
          rw [selectTranscript_cons_skip (t0 :: tl) rest hfe ht'] at h
          exact List.mem_cons_of_mem _ (ih h)
    · rw [selectTranscript_cons_found catalogue rest hfe] at h
      simp only [Option.some.injEq, Prod.mk.injEq] at h
      obtain ⟨-, rfl⟩ := h
      exact List.mem_cons_self _ _

theorem selectTranscript_eq_none {catalogue : List Track} :
    ∀ {langs : List String},
      (∀ l ∈ langs, findExact catalogue l = none ∧
        ∀ t0 tl, catalogue = t0 :: tl → t0.canTranslate l = false) →
      selectTranscript catalogue langs = none := by
  intro langs
  induction langs with
  | nil => intro _; rfl
  | cons l0 rest ih =>
    intro hall
    obtain ⟨hfe, htr⟩ := hall l0 (List.mem_cons_self _ _)
    rw [selectTranscript_cons_skip catalogue rest hfe htr]
    exact ih (fun l hl => hall l (List.mem_cons_of_mem _ hl))

theorem empty_not_mem_requestLanguages (lang : Option String) :
    "" ∉ requestLanguages lang := by
  cases lang with
  | none => decide
  | some l =>
    by_cases h : l = ""
    · subst h; decide
    · simp [requestLanguages, h]
      exact fun hh => h hh.symm

theorem get_transcript_hit {apiKey : String} {xApiKey : Option String}
    {ttl now : Nat} {provider : Except ErrKind (List Track)}
    {video_id : String} {lang : Option String} {format : String}
    {c c1 : Cache StoredResult} {r : StoredResult}
    (hauth : authFailed apiKey xApiKey = false)
    (hfmt : format = "text" ∨ format = "json")
    (hhit : get_from_cache now
      (get_cache_key video_id (pyJoin "," (requestLanguages lang))) c =
        (some r, c1)) :
    get_transcript apiKey xApiKey ttl now provider video_id lang format c =
      (.ok (formatResponse format r), c1) := by
  unfold get_transcript
  rw [if_neg (by simp [hauth]), if_neg (not_not_intro hfmt), hhit]

theorem get_transcript_miss {apiKey : String} {xApiKey : Option String}
    {ttl now : Nat} {provider : Except ErrKind (List Track)}
    {video_id : String} {lang : Option String} {format : String}
    {c c1 : Cache StoredResult}
    (hauth : authFailed apiKey xApiKey = false)
    (hfmt : format = "text" ∨ format = "json")
    (hmiss : get_from_cache now
      (get_cache_key video_id (pyJoin "," (requestLanguages lang))) c =
        (none, c1)) :
    get_transcript apiKey xApiKey ttl now provider video_id lang format c =
      resolveMiss ttl now provider video_id format
        (get_cache_key video_id (pyJoin "," (requestLanguages lang)))
        (requestLanguages lang) c1 := by
  unfold get_transcript
  rw [if_neg (by simp [hauth]), if_neg (not_not_intro hfmt), hmiss]

theorem resolveMiss_error_cache {ttl now : Nat}
    {provider : Except ErrKind (List Track)}
    {video_id format cache_key : String} {languages : List String}
    {c1 : Cache StoredResult} {e : HttpError}
    (h : (resolveMiss ttl now provider video_id format cache_key languages
      c1).1 = .error e) :
    (resolveMiss ttl now provider video_id format cache_key languages c1).2 =
      c1 := by
  rcases provider with e' | catalogue
  · rfl
  · rcases hsel : selectTranscript catalogue languages with _ | ⟨fo, l⟩
    · simp [resolveMiss, hsel]
    · rcases fo with e' | entries
      · simp [resolveMiss, hsel]
      · exfalso
        simp [resolveMiss, hsel] at h

theorem lookup_none_after_get_miss {now : Nat} {key : String}
    {c c1 : Cache α} (hnd : (keysOf c).Nodup)
    (h : get_from_cache now key c = (none, c1)) :
    lookupEntry key c1 = none := by
  rcases hl : lookupEntry key c with _ | entry
  · rw [get_from_cache_of_lookup_none hl] at h
    have h2 : c = c1 := congrArg Prod.snd h
    rw [← h2]
    exact hl
  · by_cases hexp : entry.expires_at < now
    · rw [get_from_cache_of_lookup_stale hl hexp] at h
      have h2 : eraseKey key c = c1 := congrArg Prod.snd h
      rw [← h2]
      exact lookupEntry_eraseKey_self hnd
    · rw [get_from_cache_of_lookup_fresh hl hexp] at h
      exact absurd (congrArg Prod.fst h) (by simp)

/-- C6: the resolution loop iterates the candidate languages in order and,
per candidate, tries the exact catalogue match first: an exact match for
the head candidate wins immediately with that language; failing that, a
successful translation of the first catalogue track wins with the head
candidate as the selected language (so for `["xx", "en"]` with no "xx"
track but a translation into "xx" available, the selected pair carries
language "xx" via `fetchTranslated`, never falling through to "en"); only
when both steps fail does the loop move on to the rest of the list. -/
theorem C6_resolution_order (catalogue : List Track) (l : String)
    (rest : List String) :
    (∀ t, findExact catalogue l = some t →
      selectTranscript catalogue (l :: rest) = some (t.fetchResult, l)) ∧
    (∀ t0 tl, catalogue = t0 :: tl → findExact catalogue l = none →
      t0.canTranslate l = true →
      selectTranscript catalogue (l :: rest) =
        some (t0.fetchTranslated l, l)) ∧
    (findExact catalogue l = none →
      (∀ t0 tl, catalogue = t0 :: tl → t0.canTranslate l = false) →
      selectTranscript catalogue (l :: rest) =
        selectTranscript catalogue rest) := by
  refine ⟨?_, ?_, ?_⟩
  · intro t h
    exact selectTranscript_cons_found catalogue rest h
  · intro t0 tl hcat h ht
    subst hcat
    exact selectTranscript_cons_translate t0 tl rest h ht
  · intro h ht
    exact selectTranscript_cons_skip catalogue rest h ht

/-- Witness for C6 at the claim's concrete scenario: languages
`["xx", "en"]`, no "xx" track in the catalogue, translation of the first
(and only, "pt") track into "xx" succeeds, and the selected language is
"xx" obtained via translation, not "en". -/
theorem C6_resolution_order_witness :
    findExact ptCatalogue "xx" = none ∧
      ptTrack.canTranslate "xx" = true ∧
      selectTranscript ptCatalogue ["xx", "en"] =
        some (ptTrack.fetchTranslated "xx", "xx") :=
  ⟨rfl, rfl,
    (C6_resolution_order ptCatalogue "xx" ["en"]).2.1 ptTrack [] rfl rfl rfl⟩

/-- C7: on a cache miss with a successfully listed catalogue, when no
candidate language of the request has an exact catalogue match and no
candidate can be produced by translating the first catalogue track, the
endpoint fails with status 404 and error code "no_transcript" (the
`NoTranscriptFound` raised after the loop, caught by the 404 handler) —
not with the 500 "internal_error" classification. -/
theorem C7_exhaustion_no_transcript (apiKey : String) (xApiKey : Option String)
    (ttl now : Nat) (catalogue : List Track) (video_id : String)
    (lang : Option String) (format : String) (c : Cache StoredResult)
    (hauth : authFailed apiKey xApiKey = false)
    (hfmt : format = "text" ∨ format = "json")
    (hmiss : lookupEntry
      (get_cache_key video_id (pyJoin "," (requestLanguages lang))) c = none)
    (hall : ∀ l ∈ requestLanguages lang, findExact catalogue l = none ∧
      ∀ t0 tl, catalogue = t0 :: tl → t0.canTranslate l = false) :
    (get_transcript apiKey xApiKey ttl now (.ok catalogue) video_id lang
      format c).1 = .error ⟨404, "no_transcript"⟩ := by
  rw [get_transcript_miss hauth hfmt (get_from_cache_of_lookup_none hmiss)]
  simp [resolveMiss, selectTranscript_eq_none hall, classify]

/-- Witness for C7 at a concrete input: a catalogue with a single
untranslatable "pt" track, requested language "xx", empty cache. -/
theorem C7_exhaustion_no_transcript_witness :
    authFailed "" none = false ∧
      lookupEntry
        (get_cache_key "vid" (pyJoin "," (requestLanguages (some "xx"))))
        ([] : Cache StoredResult) = none ∧
      (get_transcript "" none 3600 0 (.ok rigidCatalogue) "vid" (some "xx")
        "json" []).1 = .error ⟨404, "no_transcript"⟩ :=
  ⟨rfl, rfl,
    C7_exhaustion_no_transcript "" none 3600 0 rigidCatalogue "vid"
      (some "xx") "json" [] rfl (Or.inr rfl) rfl
      (by
        intro l hl
        have hlx : l = "xx" := List.mem_singleton.mp hl
        subst hlx
        refine ⟨rfl, ?_⟩
        intro t0 tl hh
        have hh' : [rigidTrack] = t0 :: tl := hh
        injection hh' with h1 h2
        rw [← h1]
        rfl)⟩

/-- C8: when the endpoint ends in a classified error other than the
pre-resolution 401/400 rejections (i.e. TranscriptsDisabled,
NoTranscriptFound, VideoUnavailable, TooManyRequests or the catch-all
internal error), the final cache equals the cache as left by the initial
read (whose only possible effect is the lazy deletion of a stale entry)
and holds no entry for the request's key: `set_cache` is reached only on
the fully successful path. -/
theorem C8_no_cache_write_on_failure (apiKey : String)
    (xApiKey : Option String) (ttl now : Nat)
    (provider : Except ErrKind (List Track)) (video_id : String)
    (lang : Option String) (format : String) (c : Cache StoredResult)
    (e : HttpError) (hnd : (keysOf c).Nodup)
    (herr : (get_transcript apiKey xApiKey ttl now provider video_id lang
      format c).1 = .error e)
    (hcls : e.error ≠ "unauthorized" ∧ e.error ≠ "invalid_format") :
    (get_transcript apiKey xApiKey ttl now provider video_id lang format
        c).2 =
      (get_from_cache now
        (get_cache_key video_id (pyJoin "," (requestLanguages lang))) c).2 ∧
      lookupEntry (get_cache_key video_id (pyJoin "," (requestLanguages lang)))
        ((get_transcript apiKey xApiKey ttl now provider video_id lang format
          c).2) = none := by
  by_cases hauth : authFailed apiKey xApiKey = true
  · exfalso
    have hgt : get_transcript apiKey xApiKey ttl now provider video_id lang
        format c = (.error ⟨401, "unauthorized"⟩, c) := by
      unfold get_transcript
      rw [if_pos hauth]
    rw [hgt] at herr
    injection herr with h1
    rw [← h1] at hcls
    exact hcls.1 rfl
  · have hauth' : authFailed apiKey xApiKey = false := by simpa using hauth
    by_cases hfmt : format = "text" ∨ format = "json"
    · rcases hgc : get_from_cache now
        (get_cache_key video_id (pyJoin "," (requestLanguages lang))) c with
        ⟨cached, c1⟩
      rcases cached with _ | r
      · have hgt := @get_transcript_miss apiKey xApiKey ttl now provider
          video_id lang format c c1 hauth' hfmt hgc
        rw [hgt] at herr ⊢
        have h2 := resolveMiss_error_cache herr
        rw [h2]
        exact ⟨rfl, lookup_none_after_get_miss hnd hgc⟩
      · exfalso
        have hgt := @get_transcript_hit apiKey xApiKey ttl now provider
          video_id lang format c c1 r hauth' hfmt hgc
        rw [hgt] at herr
        simp at herr
    · exfalso
      have hgt : get_transcript apiKey xApiKey ttl now provider video_id lang
          format c = (.error ⟨400, "invalid_format"⟩, c) := by
        unfold get_transcript
        rw [if_neg (by simp [hauth']), if_pos hfmt]
      rw [hgt] at herr
      injection herr with h1
      rw [← h1] at hcls
      exact hcls.2 rfl

/-- Witness for C8 at a concrete input: the provider reports the video as
unavailable, the request errors with 404/"video_unavailable", and the
empty cache stays empty with no entry for the request's key. -/
theorem C8_no_cache_write_on_failure_witness :
    (keysOf ([] : Cache StoredResult)).Nodup ∧
      (get_transcript "" none 3600 0 (.error .videoUnavailable) "vid"
        (some "en") "json" []).1 = .error ⟨404, "video_unavailable"⟩ ∧
      ((get_transcript "" none 3600 0 (.error .videoUnavailable) "vid"
          (some "en") "json" []).2 =
        (get_from_cache 0
          (get_cache_key "vid" (pyJoin "," (requestLanguages (some "en"))))
          ([] : Cache StoredResult)).2 ∧
        lookupEntry
          (get_cache_key "vid" (pyJoin "," (requestLanguages (some "en"))))
          ((get_transcript "" none 3600 0 (.error .videoUnavailable) "vid"
            (some "en") "json" []).2) = none) :=
  ⟨by decide, rfl,
    C8_no_cache_write_on_failure "" none 3600 0 (.error .videoUnavailable)
      "vid" (some "en") "json" [] ⟨404, "video_unavailable"⟩ (by decide) rfl
      (by decide)⟩

/-- C10: on every successful resolution that was not served from the cache,
the language recorded in the stored result is one of the requested
candidate languages: the selection loop only succeeds in branches that
assign `language_used` to the current candidate, every candidate is a
non-empty string, and therefore the `or "unknown"` fallback is not taken —
the stored `language_used` is the selected candidate itself, and a json
response carries exactly that language. -/
theorem C10_language_used_from_candidates (apiKey : String)
    (xApiKey : Option String) (ttl now : Nat) (catalogue : List Track)
    (video_id : String) (lang : Option String) (format : String)
    (c : Cache StoredResult) (resp : Response) (c' : Cache StoredResult)
    (hmiss : lookupEntry
      (get_cache_key video_id (pyJoin "," (requestLanguages lang))) c = none)
    (hres : get_transcript apiKey xApiKey ttl now (.ok catalogue) video_id
      lang format c = (.ok resp, c')) :
    ∃ l entries, l ∈ requestLanguages lang ∧ l ≠ "" ∧
      selectTranscript catalogue (requestLanguages lang) =
        some (.ok entries, l) ∧
      (buildStoredResult video_id format l entries).language_used = l ∧
      lookupEntry (get_cache_key video_id (pyJoin "," (requestLanguages lang)))
        c' = some ⟨buildStoredResult video_id format l entries, now + ttl⟩ ∧
      (format = "json" → resp.language_used = some l) := by
  by_cases hauth : authFailed apiKey xApiKey = true
  · exfalso
    have hgt : get_transcript apiKey xApiKey ttl now (.ok catalogue) video_id
        lang format c = (.error ⟨401, "unauthorized"⟩, c) := by
      unfold get_transcript
      rw [if_pos hauth]
    rw [hgt] at hres
    have h1 := congrArg Prod.fst hres
    simp at h1
  · have hauth' : authFailed apiKey xApiKey = false := by simpa using hauth
    by_cases hfmt : format = "text" ∨ format = "json"
    · have hgt := @get_transcript_miss apiKey xApiKey ttl now
        (Except.ok catalogue) video_id lang format c c hauth' hfmt
        (get_from_cache_of_lookup_none hmiss)
      rw [hgt] at hres
      rcases hsel : selectTranscript catalogue (requestLanguages lang) with
        _ | ⟨fo, l⟩
      · exfalso
        have h1 := congrArg Prod.fst hres
        simp [resolveMiss, hsel] at h1
      · rcases fo with e' | entries
        · exfalso
          have h1 := congrArg Prod.fst hres
          simp [resolveMiss, hsel] at h1
        · have hl : l ∈ requestLanguages lang := selectTranscript_lang_mem hsel
          have hlne : l ≠ "" := by
            intro hh
            exact empty_not_mem_requestLanguages lang (hh ▸ hl)
          have hresolve : resolveMiss ttl now (.ok catalogue) video_id format
              (get_cache_key video_id (pyJoin "," (requestLanguages lang)))
              (requestLanguages lang) c =
                (.ok (formatResponse format
                  (buildStoredResult video_id format l entries)),
                set_cache ttl now
                  (get_cache_key video_id (pyJoin "," (requestLanguages lang)))
                  (buildStoredResult video_id format l entries) c) := by
            simp [resolveMiss, hsel]
          rw [hresolve] at hres
          have hc' : set_cache ttl now
              (get_cache_key video_id (pyJoin "," (requestLanguages lang)))
              (buildStoredResult video_id format l entries) c = c' :=
            congrArg Prod.snd hres
          refine ⟨l, entries, hl, hlne, rfl, ?_, ?_, ?_⟩
          · simp [buildStoredResult, pyOr, hlne]
          · rw [← hc']
            exact lookupEntry_set_cache_self _ _ _ _ _
          · intro hjson
            have hr : formatResponse format
                (buildStoredResult video_id format l entries) = resp := by
              have h1 := congrArg Prod.fst hres
              simpa using h1
            rw [← hr]
            subst hjson
            simp [formatResponse, buildStoredResult, pyOr, hlne]
    · exfalso
      have hgt : get_transcript apiKey xApiKey ttl now (.ok catalogue)
          video_id lang format c = (.error ⟨400, "invalid_format"⟩, c) := by
        unfold get_transcript
        rw [if_neg (by simp [hauth']), if_pos hfmt]
      rw [hgt] at hres
      have h1 := congrArg Prod.fst hres
      simp at h1

/-- Witness for C10 at a concrete input: requesting "en" against the
single-"en"-track catalogue succeeds with `language_used = "en"`, a
requested candidate, and the json response carries it. -/
theorem C10_language_used_from_candidates_witness :
    lookupEntry (get_cache_key "vid" (pyJoin "," (requestLanguages (some "en"))))
      ([] : Cache StoredResult) = none ∧
      ∃ l entries, l ∈ requestLanguages (some "en") ∧ l ≠ "" ∧
        selectTranscript enCatalogue (requestLanguages (some "en")) =
          some (.ok entries, l) ∧
        (buildStoredResult "vid" "json" l entries).language_used = l ∧
        lookupEntry
          (get_cache_key "vid" (pyJoin "," (requestLanguages (some "en"))))
          (set_cache 3600 0
            (get_cache_key "vid" (pyJoin "," (requestLanguages (some "en"))))
            (buildStoredResult "vid" "json" "en" enEntries) []) =
          some ⟨buildStoredResult "vid" "json" l entries, 0 + 3600⟩ ∧
        ("json" = "json" →
          (formatResponse "json"
            (buildStoredResult "vid" "json" "en" enEntries)).language_used =
            some l) :=
  ⟨rfl,
    C10_language_used_from_candidates "" none 3600 0 enCatalogue "vid"
      (some "en") "json" []
      (formatResponse "json" (buildStoredResult "vid" "json" "en" enEntries))
      (set_cache 3600 0
        (get_cache_key "vid" (pyJoin "," (requestLanguages (some "en"))))
        (buildStoredResult "vid" "json" "en" enEntries) [])
      rfl rfl⟩

/-- C1: evaluation of the code at the failing input.  First conjunct: a
`format = text` request resolves successfully and populates the cache.
Second conjunct: a later `format = json` request for the same video and
language hits that cache entry and returns a response *without* the
`segments` field (it does carry `language_used`), because the stored
result computed segments only under `format == "json"`.  Third conjunct:
a fresh `format = json` resolution does include the segment list, so the
omission on the hit contradicts the documented json behaviour. -/
theorem C1_segments_lost_on_text_then_json_hit :
    (get_transcript "" none 3600 0 (.ok enCatalogue) "vid" (some "en")
      "text" []).1 = .ok ⟨"vid", "hello world", none, none⟩ ∧
    (get_transcript "" none 3600 1 (.ok enCatalogue) "vid" (some "en") "json"
        ((get_transcript "" none 3600 0 (.ok enCatalogue) "vid" (some "en")
          "text" []).2)).1 =
      .ok ⟨"vid", "hello world", some "en", none⟩ ∧
    (get_transcript "" none 3600 0 (.ok enCatalogue) "vid" (some "en")
      "json" []).1 =
      .ok ⟨"vid", "hello world", some "en",
        some [⟨"hello", 0, 1⟩, ⟨"world", 1, 0⟩]⟩ :=
  ⟨rfl, rfl, rfl⟩

/-- Equation of `pyJoin` on a list with at least two elements. -/
theorem pyJoin_cons2 (sep x y : String) (r : List String) :
    pyJoin sep (x :: y :: r) = x ++ sep ++ pyJoin sep (y :: r) := rfl

theorem data_append_comma (x z : String) :
    (x ++ "," ++ z).data = x.data ++ ',' :: z.data := by
  rw [String.data_append, String.data_append]
  have h : (",").data = [','] := by decide
  rw [h, List.append_assoc, List.singleton_append]

theorem append_comma_cancel :
    ∀ (a c b d : List Char), ',' ∉ a → ',' ∉ c →
      a ++ ',' :: b = c ++ ',' :: d → a = c ∧ b = d := by
  intro a
  induction a with
  | nil =>
    intro c b d _ hc h
    cases c with
    | nil =>
      simp only [List.nil_append] at h
      exact ⟨rfl, List.cons.inj h |>.2⟩
    | cons ch ct =>
      simp only [List.nil_append, List.cons_append] at h
      obtain ⟨h1, -⟩ := List.cons.inj h
      subst h1
      exact absurd (List.mem_cons_self _ _) hc
  | cons x xs ih =>
    intro c b d ha hc h
    cases c with
    | nil =>
      simp only [List.cons_append, List.nil_append] at h
      obtain ⟨h1, -⟩ := List.cons.inj h
      subst h1
      exact absurd (List.mem_cons_self _ _) ha
    | cons y ys =>
      simp only [List.cons_append] at h
      obtain ⟨h1, h2⟩ := List.cons.inj h
      have ha' : ',' ∉ xs := fun hm => ha (List.mem_cons_of_mem _ hm)
      have hc' : ',' ∉ ys := fun hm => hc (List.mem_cons_of_mem _ hm)
      obtain ⟨hac, hbd⟩ := ih ys b d ha' hc' h2
      exact ⟨by rw [h1, hac], hbd⟩

theorem pyJoin_comma_injective :
    ∀ (L1 L2 : List String),
      (∀ s ∈ L1, ',' ∉ s.data ∧ s ≠ "") →
      (∀ s ∈ L2, ',' ∉ s.data ∧ s ≠ "") →
      pyJoin "," L1 = pyJoin "," L2 → L1 = L2 := by
  intro L1
  induction L1 with
  | nil =>
    intro L2 _ h2 h
    cases L2 with
    | nil => rfl
    | cons y ys =>
      cases ys with
      | nil =>
        exact absurd h.symm (h2 y (List.mem_cons_self _ _)).2
      | cons z zs =>
        exfalso
        have hd := congrArg String.data h
        rw [pyJoin_cons2, data_append_comma] at hd
        have hlen := congrArg List.length hd
        have hzero : (pyJoin "," ([] : List String)).length = 0 := rfl
        simp at hlen
        omega
  | cons x xs ih =>
    intro L2 h1 h2 h
    cases xs with
    | nil =>
      cases L2 with
      | nil =>
        exact absurd h (h1 x (List.mem_cons_self _ _)).2
      | cons y ys =>
        cases ys with
        | nil =>
          rw [show pyJoin "," [x] = x from rfl,
            show pyJoin "," [y] = y from rfl] at h
          rw [h]
        | cons z zs =>
          exfalso
          have hd := congrArg String.data h
          rw [pyJoin_cons2, data_append_comma] at hd
          have hx : ',' ∈ x.data := by
            rw [show pyJoin "," [x] = x from rfl] at hd
            rw [hd]
            exact List.mem_append_right _ (List.mem_cons_self _ _)
          exact (h1 x (List.mem_cons_self _ _)).1 hx
    | cons x2 xr =>
      cases L2 with
      | nil =>
        exfalso
        have hd := congrArg String.data h
        rw [pyJoin_cons2, data_append_comma] at hd
        have hlen := congrArg List.length hd
        have hzero : (pyJoin "," ([] : List String)).length = 0 := rfl
        simp at hlen
        omega
      | cons y ys =>
        cases ys with
        | nil =>
          exfalso
          have hd := congrArg String.data h
          rw [pyJoin_cons2, data_append_comma] at hd
          have hy : ',' ∈ y.data := by
            rw [show pyJoin "," [y] = y from rfl] at hd
            rw [← hd]
            exact List.mem_append_right _ (List.mem_cons_self _ _)
          exact (h2 y (List.mem_cons_self _ _)).1 hy
        | cons y2 yr =>
          have hd := congrArg String.data h
          rw [pyJoin_cons2, pyJoin_cons2, data_append_comma,
            data_append_comma] at hd
          obtain ⟨hxy, hrest⟩ :=
            append_comma_cancel x.data y.data _ _
              (h1 x (List.mem_cons_self _ _)).1
              (h2 y (List.mem_cons_self _ _)).1 hd
          have hx : x = y := String.ext hxy
          have hr : x2 :: xr = y2 :: yr :=
            ih (y2 :: yr)
              (fun s hs => h1 s (List.mem_cons_of_mem _ hs))
              (fun s hs => h2 s (List.mem_cons_of_mem _ hs))
              (String.ext hrest)
          rw [hx, hr]

/-- C9 counterexample: the comma-join key construction is not injective
over arbitrary ordered language lists: for the same video, the
single-language request `lang = "en,pt"` (list `["en,pt"]`) and the list
`["en", "pt"]` produce the same cache key. -/
theorem C9_cache_key_comma_counterexample :
    (["en,pt"] : List String) ≠ ["en", "pt"] ∧
      requestLanguages (some "en,pt") = ["en,pt"] ∧
      get_cache_key "vid" (pyJoin "," ["en,pt"]) =
        get_cache_key "vid" (pyJoin "," ["en", "pt"]) :=
  ⟨by decide, rfl, rfl⟩

/-- C9 amended: the key construction is injective for a fixed video over
ordered language lists whose tags are non-empty and comma-free (as are the
default list and every non-empty single tag without a comma): two such
lists that differ in order or content give distinct keys.  Without that
restriction the single tag "en,pt" collides with the list ["en", "pt"]. -/
theorem C9_cache_key_injective_comma_free (v : String) (L1 L2 : List String)
    (h1 : ∀ s ∈ L1, ',' ∉ s.data ∧ s ≠ "")
    (h2 : ∀ s ∈ L2, ',' ∉ s.data ∧ s ≠ "") (hne : L1 ≠ L2) :
    get_cache_key v (pyJoin "," L1) ≠ get_cache_key v (pyJoin "," L2) := by
  intro h
  apply hne
  apply pyJoin_comma_injective L1 L2 h1 h2
  have hd := congrArg String.data h
  unfold get_cache_key at hd
  rw [String.data_append, String.data_append, String.data_append,
    String.data_append] at hd
  exact String.ext (List.append_cancel_left hd)

/-- Witness for the amended C9 at the claim's concrete inputs: `["en"]`
and `["en", "pt"]` are comma-free and map to distinct keys for the same
video. -/
theorem C9_cache_key_injective_comma_free_witness :
    (∀ s ∈ (["en"] : List String), ',' ∉ s.data ∧ s ≠ "") ∧
      (∀ s ∈ (["en", "pt"] : List String), ',' ∉ s.data ∧ s ≠ "") ∧
      get_cache_key "vid" (pyJoin "," ["en"]) ≠
        get_cache_key "vid" (pyJoin "," ["en", "pt"]) :=
  ⟨by decide, by decide,
    C9_cache_key_injective_comma_free "vid" ["en"] ["en", "pt"] (by decide)
      (by decide) (by decide)⟩

end TranscriptService
